import Mathlib

/-!
Verification of the artist matching, name normalization, similarity scoring,
and review-ledger components of the Plex-Unmatched-Metadata-Sync repository.

Strings are modelled as lists of character codes (`List Nat`); Python floats
are modelled as exact rationals (`ℚ`).  The ASCII fragment of Python's regex
character classes is modelled: `\w` is alphanumeric-or-underscore, `\s` is
the six ASCII whitespace characters.
-/

/-- Python `\s` (ASCII fragment): space, tab, newline, carriage return,
vertical tab, form feed.  Used by `re.sub(r'\s+', ' ', ...)` and `str.strip`. -/
def isSpaceCode (c : Nat) : Bool :=
  decide (c = 32) || decide (c = 9) || decide (c = 10) ||
  decide (c = 13) || decide (c = 11) || decide (c = 12)

/-- Python `\w` (ASCII fragment): digits, upper- and lower-case letters,
underscore. -/
def isWordCode (c : Nat) : Bool :=
  decide (48 ≤ c ∧ c ≤ 57) || decide (65 ≤ c ∧ c ≤ 90) ||
  decide (97 ≤ c ∧ c ≤ 122) || decide (c = 95)

/-- The character class kept by `re.sub(r'[^\w\s\-]', '', name)` in
`SpotifyConnector._normalize_artist_name`: word characters, whitespace,
and the hyphen (code 45).  Every other character (including the period,
code 46) is deleted. -/
def keepCode (c : Nat) : Bool :=
  isWordCode c || isSpaceCode c || decide (c = 45)

/-- Model of `str.lower` on a single character code (ASCII fragment). -/
def toLowerCode (c : Nat) : Nat :=
  if 65 ≤ c ∧ c ≤ 90 then c + 32 else c

/-- Drop everything up to and including the first occurrence of `cl`. -/
def dropThroughClose (cl : Nat) (l : List Nat) : List Nat :=
  (l.dropWhile (fun c => decide (c ≠ cl))).tail

/-- Model of `re.sub` with pattern `op [^cl]* cl` and empty replacement: repeatedly,
scanning left to right, an occurrence of `op` that has a later `cl` is
removed together with everything up to that first `cl`; an `op` with no
following `cl` matches nothing, and since no `cl` remains at all, the rest
of the string is left unchanged.  Instantiated at `(`,`)` and `[`,`]` this
models the two `re.sub` calls in `_normalize_artist_name`. -/
def stripDelim (op cl : Nat) : List Nat → List Nat
  | [] => []
  | c :: cs =>
    if c = op ∧ cl ∈ cs then
      stripDelim op cl (dropThroughClose cl cs)
    else if c = op then
      c :: cs
    else
      c :: stripDelim op cl cs
termination_by l => l.length
decreasing_by
  all_goals simp only [List.length_cons]
  all_goals
    have h2 : (dropThroughClose cl cs).length ≤ cs.length := by
      have ha := List.Sublist.length_le
        (List.IsSuffix.sublist (List.dropWhile_suffix (l := cs) (fun c => decide (c ≠ cl))))
      have hb : ((cs.dropWhile (fun c => decide (c ≠ cl))).tail).length ≤
          (cs.dropWhile (fun c => decide (c ≠ cl))).length := by
        cases cs.dropWhile (fun c => decide (c ≠ cl)) <;> simp
      simpa [dropThroughClose] using le_trans hb ha
  all_goals omega

/-- Model of `re.sub(r'\s+', ' ', name)`: every maximal run of whitespace characters
is replaced by a single space (code 32). -/
def collapseSpaces : List Nat → List Nat
  | [] => []
  | c :: cs =>
    if isSpaceCode c then 32 :: collapseSpaces (cs.dropWhile isSpaceCode)
    else c :: collapseSpaces cs
termination_by l => l.length
decreasing_by
  all_goals simp only [List.length_cons]
  all_goals
    have h2 : (cs.dropWhile isSpaceCode).length ≤ cs.length :=
      List.Sublist.length_le (List.IsSuffix.sublist (List.dropWhile_suffix isSpaceCode))
  all_goals omega

/-- Python `str.strip()`: remove leading and trailing whitespace. -/
def pyStrip (l : List Nat) : List Nat :=
  ((l.dropWhile isSpaceCode).reverse.dropWhile isSpaceCode).reverse

/-- Model of `SpotifyConnector._normalize_artist_name`: empty input returns the empty
string; otherwise lower-case, remove `(...)` then `[...]` spans, delete every
character outside `[\w\s\-]`, collapse whitespace runs to one space, and strip
both ends. -/
def normalizeArtistName (name : List Nat) : List Nat :=
  if name = [] then []
  else
    pyStrip (collapseSpaces (List.filter keepCode
      (stripDelim 91 93 (stripDelim 40 41 (name.map toLowerCode)))))

/-- Model of `SpotifyConnector._calculate_similarity_score`, parameterized by `seqSim`,
which models `difflib.SequenceMatcher(None, a, b).ratio()` (an external
library function whose only relevant property is that its value lies in
`[0,1]`).  Python's `min(a, b, key=len)` returns the first argument on ties,
`max(a, b, key=len)` likewise; the quotient of their lengths equals
`min len / max len`.  Returns the similarity and the exact-match flag. -/
def calculateSimilarityScore (seqSim : List Nat → List Nat → ℚ)
    (name1 name2 : List Nat) : ℚ × Bool :=
  let norm1 := normalizeArtistName name1
  let norm2 := normalizeArtistName name2
  if norm1 = norm2 then (1, true)
  else
    let sequenceSimilarity := seqSim norm1 norm2
    if norm1 <:+: norm2 ∨ norm2 <:+: norm1 then
      let shorterLen := if norm1.length ≤ norm2.length then norm1.length else norm2.length
      let longerLen := if norm2.length ≤ norm1.length then norm1.length else norm2.length
      let containedSimilarity := (shorterLen : ℚ) / (longerLen : ℚ)
      (max sequenceSimilarity containedSimilarity, false)
    else
      (sequenceSimilarity, false)

/-- Structure `SpotifyArtistInfo` from src/spotify/models.py.  Image descriptors
(Python dicts) are modelled as association lists. -/
structure SpotifyArtistInfo where
  id : String
  name : List Nat
  genres : List String
  popularity : Int
  followers : Int
  images : List (List (String × String))
  spotify_url : String
  bio : Option String := none
deriving DecidableEq, Repr

/-- Structure `UnmatchedArtist` from src/plex/connector.py. -/
structure UnmatchedArtist where
  title : List Nat
  library_section_id : Int
  rating_key : String
  guid : String
  original_title : Option (List Nat) := none
  section_title : Option String := none
deriving DecidableEq, Repr

/-- Model of `SpotifyConnector.get_artist_metadata_status`: the four metadata-presence
flags. -/
def getArtistMetadataStatus (artist : SpotifyArtistInfo) :
    Bool × Bool × Bool × Bool :=
  (decide (artist.genres.length > 0),
   decide (artist.images.length > 0),
   decide (artist.popularity > 0),
   decide (artist.followers > 0))

/-- Model of `sum(1 for v in metadata_status.values() if v)`: how many of the four
metadata fields are present. -/
def metadataPresentCount (artist : SpotifyArtistInfo) : Nat :=
  let s := getArtistMetadataStatus artist
  (if s.1 then 1 else 0) + (if s.2.1 then 1 else 0) +
  (if s.2.2.1 then 1 else 0) + (if s.2.2.2 then 1 else 0)

/-- Model of `ArtistMatcher._calculate_match_confidence`: exact pairs score 1.0;
otherwise the base similarity plus a popularity factor
`(popularity/100)*0.1` and a metadata-completeness factor
`(present/4)*0.1`, clamped to `[0,1]` by `min(max(x, 0.0), 1.0)`. -/
def calculateMatchConfidence (seqSim : List Nat → List Nat → ℚ)
    (plexTitle : List Nat) (spotifyArtist : SpotifyArtistInfo) : ℚ :=
  let scored := calculateSimilarityScore seqSim plexTitle spotifyArtist.name
  if scored.2 then 1
  else
    let popularityFactor := ((spotifyArtist.popularity : ℚ) / 100) * (1 / 10)
    let metadataFactor := ((metadataPresentCount spotifyArtist : ℚ) / 4) * (1 / 10)
    min (max (scored.1 + (popularityFactor + metadataFactor)) 0) 1

/-- The tag stored in `MatchResult.match_details`: the `'match_type'` entry
(`'exact'` or `'fuzzy'`), or the `'reason': 'no_matches_found'` entry of the
no-result branch. -/
inductive MatchDetailsTag where
  | exact
  | fuzzy
  | noMatchesFound
deriving DecidableEq, Repr

/-- Structure `MatchResult` from src/matching/matcher.py. -/
structure MatchResult where
  plex_artist : UnmatchedArtist
  spotify_match : Option SpotifyArtistInfo
  confidence : ℚ
  needs_review : Bool
  alternative_matches : List SpotifyArtistInfo
  match_details : MatchDetailsTag
deriving DecidableEq, Repr

/-- The configuration values read in `ArtistMatcher.__init__` via
`config.get`, with their defaults. -/
structure MatcherConfig where
  auto_match_threshold : ℚ := 95 / 100
  review_threshold : ℚ := 80 / 100
  max_alternatives : Nat := 5
deriving DecidableEq, Repr

/-- Model of `self.min_confidence = self.review_threshold` in `ArtistMatcher.__init__`. -/
def MatcherConfig.min_confidence (cfg : MatcherConfig) : ℚ :=
  cfg.review_threshold

/-- The matcher configuration with every key absent, so every default
applies. -/
def defaultMatcherConfig : MatcherConfig := {}

/-- The per-candidate confidence scoring loop of
`ArtistMatcher._process_single_artist`: pair each fuzzy search result with
its confidence. -/
def scoredMatches (seqSim : List Nat → List Nat → ℚ) (title : List Nat)
    (results : List SpotifyArtistInfo) : List (SpotifyArtistInfo × ℚ) :=
  results.map (fun r => (r, calculateMatchConfidence seqSim title r))

/-- Model of `scored_matches.sort(key=lambda x: x[1], reverse=True)`.  Python's sort is
stable, and a stable sort under a total preorder has a unique result, so the
stable insertion sort with relation "left confidence is at least right
confidence" computes the same list. -/
def sortByConfidenceDesc (l : List (SpotifyArtistInfo × ℚ)) :
    List (SpotifyArtistInfo × ℚ) :=
  l.insertionSort (fun x y => y.2 ≤ x.2)

theorem sortByConfidenceDesc_ne_nil {l : List (SpotifyArtistInfo × ℚ)}
    (h : l ≠ []) : sortByConfidenceDesc l ≠ [] := by
  intro hc
  have := List.perm_insertionSort (r := fun x y : SpotifyArtistInfo × ℚ => y.2 ≤ x.2) l
  rw [sortByConfidenceDesc] at hc
  rw [hc] at this
  exact h (List.Perm.nil_eq this).symm

/-- Model of `ArtistMatcher._process_single_artist`.  The two Spotify searches are
external calls; their answers are passed in as `exactResults` (the result of
`search_artist(title, exact_match=True)`) and `searchResults` (the plain
search), with `[]` standing for Python's `None`-or-empty falsy result.
The exact branch keeps `exact_results[0]` and the slice
`exact_results[1:max_alternatives]`; the fuzzy branch sorts the scored
candidates by confidence descending, keeps the head, and takes the slice
`scored_matches[1:max_alternatives]` as alternatives. -/
def processSingleArtist (cfg : MatcherConfig) (seqSim : List Nat → List Nat → ℚ)
    (artist : UnmatchedArtist)
    (exactResults searchResults : List SpotifyArtistInfo) : MatchResult :=
  match exactResults with
  | e0 :: erest =>
    { plex_artist := artist
      spotify_match := some e0
      confidence := 1
      needs_review := false
      alternative_matches :=
        if erest.length + 1 > 1 then
          ((e0 :: erest).drop 1).take (cfg.max_alternatives - 1)
        else []
      match_details := .exact }
  | [] =>
    match hs : searchResults with
    | [] =>
      { plex_artist := artist
        spotify_match := none
        confidence := 0
        needs_review := false
        alternative_matches := []
        match_details := .noMatchesFound }
    | s0 :: srest =>
      let sorted := sortByConfidenceDesc (scoredMatches seqSim artist.title (s0 :: srest))
      let best := sorted.head (sortByConfidenceDesc_ne_nil (by simp [scoredMatches]))
      { plex_artist := artist
        spotify_match := some best.1
        confidence := best.2
        needs_review := decide (best.2 < cfg.auto_match_threshold)
        alternative_matches := ((sorted.drop 1).take (cfg.max_alternatives - 1)).map Prod.fst
        match_details := .fuzzy }

/-- The per-artist outcome of `_process_single_artist` as observed by the
batch loop in `process_unmatched_artists`: either the call raised an
exception, or it returned a `MatchResult`. -/
inductive ProcOutcome where
  | raised
  | ok (m : MatchResult)
deriving DecidableEq, Repr

/-- The three result buckets built by `process_unmatched_artists`. -/
structure MatchBuckets where
  matched : List MatchResult
  needs_review : List MatchResult
  no_matches : List UnmatchedArtist
deriving DecidableEq, Repr

/-- One iteration of the loop in `ArtistMatcher.process_unmatched_artists`,
prepended to the buckets produced by the remaining iterations.  An exception
appends the artist to `no_matches`; a result with a non-null `spotify_match`
goes to `matched` when `confidence >= self.min_confidence` and to
`needs_review` otherwise; a null `spotify_match` goes to `no_matches`.  (The
timeout branch classifies by exactly the same tests, so it needs no separate
model.) -/
def routeArtist (cfg : MatcherConfig) (artist : UnmatchedArtist)
    (outcome : ProcOutcome) (b : MatchBuckets) : MatchBuckets :=
  match outcome with
  | .raised => { b with no_matches := artist :: b.no_matches }
  | .ok m =>
    match m.spotify_match with
    | some _ =>
      if cfg.min_confidence ≤ m.confidence then
        { b with matched := m :: b.matched }
      else
        { b with needs_review := m :: b.needs_review }
    | none => { b with no_matches := artist :: b.no_matches }

/-- Model of `ArtistMatcher.process_unmatched_artists` over a list of artists paired
with the outcome of their per-artist processing. -/
def processUnmatchedArtists (cfg : MatcherConfig) :
    List (UnmatchedArtist × ProcOutcome) → MatchBuckets
  | [] => { matched := [], needs_review := [], no_matches := [] }
  | (artist, outcome) :: rest =>
    routeArtist cfg artist outcome (processUnmatchedArtists cfg rest)

/-- An operator decision dict as built by `MatchReviewer._accept_match`,
`_choose_alternative`, `_mark_no_match` and `_manual_search`: the union of
the scalar keys those dicts use, each optional, plus the `spotify_data`
entry.  The outer `Option` of `spotify_data` records whether the key is
present at all (`'spotify_data' in decision`), the inner one its value
(`_spotify_artist_to_dict` / `_dict_to_spotify_artist` both map a falsy
value to `None`). -/
structure Decision where
  action : String
  plex_artist : List Nat
  spotify_id : Option String := none
  spotify_name : Option (List Nat) := none
  confidence : Option ℚ := none
  original_confidence : Option ℚ := none
  reason : Option String := none
  search_term : Option (List Nat) := none
  match_type : Option String := none
  timestamp : Option String := none
  spotify_data : Option (Option SpotifyArtistInfo) := none
deriving DecidableEq, Repr

/-- The dictionary form of a `SpotifyArtistInfo` produced by
`MatchReviewer._spotify_artist_to_dict`: exactly the seven serialized fields.
There is no `bio` entry. -/
structure SpotifyArtistDict where
  id : String
  name : List Nat
  genres : List String
  popularity : Int
  followers : Int
  spotify_url : String
  images : List (List (String × String))
deriving DecidableEq, Repr

/-- Model of `MatchReviewer._spotify_artist_to_dict`: `None` for a falsy artist,
otherwise the seven-field dictionary. -/
def spotifyArtistToDict : Option SpotifyArtistInfo → Option SpotifyArtistDict
  | none => none
  | some a =>
    some { id := a.id, name := a.name, genres := a.genres,
           popularity := a.popularity, followers := a.followers,
           spotify_url := a.spotify_url, images := a.images }

/-- Model of `MatchReviewer._dict_to_spotify_artist`: `None` for falsy data, otherwise
a `SpotifyArtistInfo` built from the seven dictionary entries; the `bio`
field takes its dataclass default `None`. -/
def dictToSpotifyArtist : Option SpotifyArtistDict → Option SpotifyArtistInfo
  | none => none
  | some d =>
    some { id := d.id, name := d.name, genres := d.genres,
           popularity := d.popularity, followers := d.followers,
           spotify_url := d.spotify_url, images := d.images }

/-- A decision as it sits in the persisted JSON file: the same scalar
entries (JSON round-trips them unchanged), with `spotify_data` in
dictionary form. -/
structure PersistedDecision where
  action : String
  plex_artist : List Nat
  spotify_id : Option String := none
  spotify_name : Option (List Nat) := none
  confidence : Option ℚ := none
  original_confidence : Option ℚ := none
  reason : Option String := none
  search_term : Option (List Nat) := none
  match_type : Option String := none
  timestamp : Option String := none
  spotify_data : Option (Option SpotifyArtistDict) := none
deriving DecidableEq, Repr

/-- The per-decision serialization step of `_save_review_progress`:
`decision.copy()` with `spotify_data` (when the key is present) replaced by
its dictionary form. -/
def persistDecision (d : Decision) : PersistedDecision :=
  { action := d.action, plex_artist := d.plex_artist,
    spotify_id := d.spotify_id, spotify_name := d.spotify_name,
    confidence := d.confidence, original_confidence := d.original_confidence,
    reason := d.reason, search_term := d.search_term,
    match_type := d.match_type, timestamp := d.timestamp,
    spotify_data := d.spotify_data.map spotifyArtistToDict }

/-- The per-decision reconstruction step of `load_previous_session`:
`decision.copy()` with `spotify_data` (when the key is present) rebuilt as a
`SpotifyArtistInfo` value object. -/
def restoreDecision (p : PersistedDecision) : Decision :=
  { action := p.action, plex_artist := p.plex_artist,
    spotify_id := p.spotify_id, spotify_name := p.spotify_name,
    confidence := p.confidence, original_confidence := p.original_confidence,
    reason := p.reason, search_term := p.search_term,
    match_type := p.match_type, timestamp := p.timestamp,
    spotify_data := p.spotify_data.map dictToSpotifyArtist }

/-- The decision ledger `self.decisions : Dict[str, Dict]`, modelled as its
insertion-ordered item list with pairwise-distinct keys. -/
def DecisionLedger := List (String × Decision)

/-- Model of `_save_review_progress` applied to the whole ledger. -/
def persistLedger (l : List (String × Decision)) : List (String × PersistedDecision) :=
  l.map (fun kv => (kv.1, persistDecision kv.2))

/-- Model of `load_previous_session` applied to the whole persisted ledger. -/
def restoreLedger (l : List (String × PersistedDecision)) : List (String × Decision) :=
  l.map (fun kv => (kv.1, restoreDecision kv.2))

/-- Python dict item assignment `d[k] = v`: replace the value at an existing
key in place, else append the new pair at the end. -/
def dictSet {α : Type} (k : String) (v : α) : List (String × α) → List (String × α)
  | [] => [(k, v)]
  | (k', v') :: rest =>
    if k' = k then (k, v) :: rest else (k', v') :: dictSet k v rest

/-- Python dict lookup `d.get(k)`. -/
def dictGet {α : Type} (k : String) : List (String × α) → Option α
  | [] => none
  | (k', v') :: rest => if k' = k then some v' else dictGet k rest

/-- Model of `MatchReviewer._add_decision`: stamp the decision with the current time
and store it under the artist key, overwriting any previous decision for
that key. -/
def addDecision (now : String) (key : String) (d : Decision)
    (ledger : List (String × Decision)) : List (String × Decision) :=
  dictSet key { d with timestamp := some now } ledger

/-! ### Properties of the name normalizer -/

/-- The relation "no two adjacent whitespace characters", read along the
string via `List.Chain'`. -/
def noAdjSpace (a b : Nat) : Prop := isSpaceCode a = true → isSpaceCode b = false

theorem chainPrefixHelper {l m : List Nat} (h : List.Chain' noAdjSpace l)
    (hp : m <+: l) : List.Chain' noAdjSpace m :=
  List.Chain'.prefix h hp

theorem chainSuffixHelper {l m : List Nat} (h : List.Chain' noAdjSpace l)
    (hs : m <:+ l) : List.Chain' noAdjSpace m :=
  List.Chain'.suffix h hs

theorem toLowerCode_idem (c : Nat) : toLowerCode (toLowerCode c) = toLowerCode c := by
  simp only [toLowerCode]
  split_ifs <;> omega

theorem stripDelim_sublist (op cl : Nat) (l : List Nat) :
    (stripDelim op cl l).Sublist l := by
  induction l using stripDelim.induct op cl with
  | case1 => simp [stripDelim]
  | case2 c cs h ih =>
    rw [stripDelim, if_pos h]
    refine List.Sublist.trans ih (List.Sublist.trans ?_ (List.sublist_cons_self c cs))
    exact List.Sublist.trans (List.tail_sublist _)
      (List.IsSuffix.sublist (List.dropWhile_suffix _))
  | case3 cs h =>
    rw [stripDelim, if_neg h, if_pos rfl]
  | case4 c cs h h' ih =>
    rw [stripDelim, if_neg h, if_neg h']
    exact List.Sublist.cons₂ _ ih

theorem stripDelim_id {op cl : Nat} {l : List Nat} (h : op ∉ l) :
    stripDelim op cl l = l := by
  induction l with
  | nil => simp [stripDelim]
  | cons c cs ih =>
    have hc : ¬c = op := fun hco => h (hco ▸ List.mem_cons_self c cs)
    rw [stripDelim, if_neg (fun hand => hc hand.1), if_neg hc,
      ih (fun hm => h (List.mem_cons_of_mem c hm))]

theorem mem_collapseSpaces {a : Nat} {l : List Nat} (h : a ∈ collapseSpaces l) :
    a = 32 ∨ (a ∈ l ∧ isSpaceCode a = false) := by
  induction l using collapseSpaces.induct with
  | case1 => simp [collapseSpaces] at h
  | case2 c cs hc ih =>
    rw [collapseSpaces, if_pos hc] at h
    rcases List.mem_cons.mp h with h32 | hrest
    · exact Or.inl h32
    · rcases ih hrest with h32 | ⟨hmem, hsp⟩
      · exact Or.inl h32
      · exact Or.inr ⟨List.mem_cons_of_mem c
          (List.Sublist.mem hmem (List.IsSuffix.sublist (List.dropWhile_suffix _))), hsp⟩
  | case3 c cs hc ih =>
    rw [collapseSpaces, if_neg hc] at h
    rcases List.mem_cons.mp h with hca | hrest
    · exact Or.inr ⟨hca ▸ List.mem_cons_self c cs, hca ▸ (by simpa using hc)⟩
    · rcases ih hrest with h32 | ⟨hmem, hsp⟩
      · exact Or.inl h32
      · exact Or.inr ⟨List.mem_cons_of_mem c hmem, hsp⟩

theorem head?_dropWhile_not {p : Nat → Bool} {l : List Nat} {a : Nat}
    (h : (l.dropWhile p).head? = some a) : p a = false := by
  induction l with
  | nil => simp [List.dropWhile] at h
  | cons c cs ih =>
    rw [List.dropWhile_cons] at h
    by_cases hp : p c = true
    · exact ih (by simpa [hp] using h)
    · have : c = a := by simpa [hp] using h
      subst this
      simpa using hp

theorem head?_collapseSpaces_dropWhile {m : List Nat} {a : Nat}
    (h : (collapseSpaces (m.dropWhile isSpaceCode)).head? = some a) :
    isSpaceCode a = false := by
  cases hm : m.dropWhile isSpaceCode with
  | nil => rw [hm] at h; simp [collapseSpaces] at h
  | cons d ds =>
    have hd : isSpaceCode d = false := head?_dropWhile_not (by rw [hm]; rfl)
    rw [hm, collapseSpaces, if_neg (by simp [hd])] at h
    have : d = a := by simpa using h
    exact this ▸ hd

theorem chain'_collapseSpaces (l : List Nat) :
    List.Chain' noAdjSpace (collapseSpaces l) := by
  induction l using collapseSpaces.induct with
  | case1 => simp [collapseSpaces]
  | case2 c cs hc ih =>
    rw [collapseSpaces, if_pos hc]
    rw [List.chain'_cons']
    refine ⟨fun y hy => ?_, ih⟩
    intro _
    exact head?_collapseSpaces_dropWhile (by simpa using hy)
  | case3 c cs hc ih =>
    rw [collapseSpaces, if_neg hc]
    rw [List.chain'_cons']
    refine ⟨fun y hy => ?_, ih⟩
    intro habs
    simp only [Bool.not_eq_true] at hc
    rw [hc] at habs
    exact absurd habs (by simp)

theorem collapseSpaces_id {l : List Nat}
    (h32 : ∀ a ∈ l, isSpaceCode a = true → a = 32)
    (hch : List.Chain' noAdjSpace l) : collapseSpaces l = l := by
  induction l with
  | nil => simp [collapseSpaces]
  | cons c cs ih =>
    rw [List.chain'_cons'] at hch
    by_cases hc : isSpaceCode c = true
    · have hc32 : c = 32 := h32 c (List.mem_cons_self c cs) hc
      have hdrop : cs.dropWhile isSpaceCode = cs := by
        cases cs with
        | nil => rfl
        | cons d ds =>
          have hd : isSpaceCode d = false := hch.1 d rfl hc
          rw [List.dropWhile_cons, if_neg (by simp [hd])]
      rw [collapseSpaces, if_pos hc, hdrop,
        ih (fun a ha hs => h32 a (List.mem_cons_of_mem c ha) hs) hch.2, hc32]
    · rw [collapseSpaces, if_neg hc,
        ih (fun a ha hs => h32 a (List.mem_cons_of_mem c ha) hs) hch.2]

theorem prefix_head?_eq {p l : List Nat} (hp : p <+: l) {a : Nat}
    (h : p.head? = some a) : l.head? = some a := by
  obtain ⟨t, rfl⟩ := hp
  cases p with
  | nil => simp at h
  | cons x xs => simpa using h

theorem pyStrip_prefix_dropWhile (l : List Nat) :
    pyStrip l <+: l.dropWhile isSpaceCode := by
  rw [pyStrip]
  have h1 : ((l.dropWhile isSpaceCode).reverse.dropWhile isSpaceCode) <:+
      (l.dropWhile isSpaceCode).reverse := List.dropWhile_suffix _
  have h2 := @List.reverse_suffix Nat
    ((l.dropWhile isSpaceCode).reverse.dropWhile isSpaceCode).reverse
    (l.dropWhile isSpaceCode)
  rw [List.reverse_reverse] at h2
  exact h2.mp h1

theorem pyStrip_sublist (l : List Nat) : (pyStrip l).Sublist l :=
  List.Sublist.trans (List.IsPrefix.sublist (pyStrip_prefix_dropWhile l))
    (List.IsSuffix.sublist (List.dropWhile_suffix _))

theorem pyStrip_head {l : List Nat} {a : Nat} (h : (pyStrip l).head? = some a) :
    isSpaceCode a = false :=
  head?_dropWhile_not (prefix_head?_eq (pyStrip_prefix_dropWhile l) h)

theorem pyStrip_last {l : List Nat} {a : Nat} (h : (pyStrip l).getLast? = some a) :
    isSpaceCode a = false := by
  rw [List.getLast?_eq_head?_reverse, pyStrip, List.reverse_reverse] at h
  exact head?_dropWhile_not h

theorem pyStrip_chain {l : List Nat} (h : List.Chain' noAdjSpace l) :
    List.Chain' noAdjSpace (pyStrip l) :=
  chainPrefixHelper (chainSuffixHelper h (List.dropWhile_suffix _))
    (pyStrip_prefix_dropWhile l)

theorem dropWhile_id_of_head {p : Nat → Bool} {l : List Nat}
    (h : ∀ a, l.head? = some a → p a = false) : l.dropWhile p = l := by
  cases l with
  | nil => rfl
  | cons c cs => rw [List.dropWhile_cons, if_neg (by simp [h c rfl])]

theorem pyStrip_id {l : List Nat}
    (hh : ∀ a, l.head? = some a → isSpaceCode a = false)
    (hl : ∀ a, l.getLast? = some a → isSpaceCode a = false) : pyStrip l = l := by
  rw [pyStrip, dropWhile_id_of_head hh,
    dropWhile_id_of_head (fun a ha => hl a (by rwa [List.getLast?_eq_head?_reverse])),
    List.reverse_reverse]

/-- Characterization of the normalizer's output: every character survives the
`[^\w\s\-]` deletion, is lower-case-stable, and every whitespace character is
the single space 32; no two adjacent characters are both whitespace; the
first and last characters are not whitespace. -/
theorem normalize_clean (name : List Nat) :
    (∀ c ∈ normalizeArtistName name,
      keepCode c = true ∧ toLowerCode c = c ∧ (isSpaceCode c = true → c = 32)) ∧
    List.Chain' noAdjSpace (normalizeArtistName name) ∧
    (∀ a, (normalizeArtistName name).head? = some a → isSpaceCode a = false) ∧
    (∀ a, (normalizeArtistName name).getLast? = some a → isSpaceCode a = false) := by
  by_cases hn : name = []
  · subst hn
    refine ⟨?_, ?_, ?_, ?_⟩ <;> simp [normalizeArtistName]
  · rw [normalizeArtistName, if_neg hn]
    refine ⟨?_, pyStrip_chain (chain'_collapseSpaces _),
      fun a ha => pyStrip_head ha, fun a ha => pyStrip_last ha⟩
    intro c hc
    have hc1 := List.Sublist.mem hc (pyStrip_sublist _)
    rcases mem_collapseSpaces hc1 with h32 | ⟨hD, hns⟩
    · subst h32
      exact ⟨by decide, by decide, fun _ => rfl⟩
    · refine ⟨List.of_mem_filter hD, ?_, fun hs => absurd hs (by simp [hns])⟩
      have hA : c ∈ name.map toLowerCode :=
        List.Sublist.mem (List.Sublist.mem (List.mem_of_mem_filter hD)
          (stripDelim_sublist 91 93 _)) (stripDelim_sublist 40 41 _)
      obtain ⟨d, _, rfl⟩ := List.mem_map.mp hA
      exact toLowerCode_idem d

/-- C9 (confirmed): `normalize` is idempotent —
`normalize(normalize(x)) = normalize(x)` for every input string. -/
theorem claim9_normalize_idempotent (x : List Nat) :
    normalizeArtistName (normalizeArtistName x) = normalizeArtistName x := by
  obtain ⟨hmem, hch, hhd, hlast⟩ := normalize_clean x
  by_cases hnil : normalizeArtistName x = []
  · rw [hnil]
    simp [normalizeArtistName]
  · rw [normalizeArtistName, if_neg hnil]
    have hmap : (normalizeArtistName x).map toLowerCode = normalizeArtistName x := by
      calc (normalizeArtistName x).map toLowerCode
          = (normalizeArtistName x).map id :=
            List.map_congr_left (fun a ha => (hmem a ha).2.1)
        _ = normalizeArtistName x := List.map_id _
    have h40 : (40 : Nat) ∉ normalizeArtistName x := fun hm =>
      absurd ((hmem 40 hm).1) (by decide)
    have h91 : (91 : Nat) ∉ normalizeArtistName x := fun hm =>
      absurd ((hmem 91 hm).1) (by decide)
    rw [hmap, stripDelim_id h40, stripDelim_id h91,
      List.filter_eq_self.mpr (fun a ha => (hmem a ha).1),
      collapseSpaces_id (fun a ha hs => (hmem a ha).2.2 hs) hch,
      pyStrip_id hhd hlast]

/-- C7 (counterexample): on the input `"a.b"` the normalizer returns `"ab"`:
the period is deleted, not preserved, and no space is substituted for it. -/
theorem claim7_counterexample :
    normalizeArtistName [97, 46, 98] = [97, 98] ∧
    normalizeArtistName [97, 46, 98] ≠ [97, 46, 98] ∧
    (46 : Nat) ∉ normalizeArtistName [97, 46, 98] := by
  have h : normalizeArtistName [97, 46, 98] = [97, 98] := by
    simp [normalizeArtistName, stripDelim, collapseSpaces, pyStrip, keepCode,
      isWordCode, isSpaceCode, toLowerCode]
  rw [h]
  exact ⟨rfl, by decide, by decide⟩

/-- C7 (amended): `normalize` lower-cases, strips parenthesized and bracketed
spans, DELETES (rather than replacing with a space) every character that is
not a word character (alphanumeric or underscore), whitespace, or hyphen —
periods in particular are deleted — collapses whitespace runs to one space
(32), trims both ends, and maps empty input to the empty string. -/
theorem claim7_normalize_transforms (name : List Nat) :
    (∀ c ∈ normalizeArtistName name,
      keepCode c = true ∧ toLowerCode c = c ∧ (isSpaceCode c = true → c = 32)) ∧
    (46 : Nat) ∉ normalizeArtistName name ∧
    List.Chain' noAdjSpace (normalizeArtistName name) ∧
    (∀ a, (normalizeArtistName name).head? = some a → isSpaceCode a = false) ∧
    (∀ a, (normalizeArtistName name).getLast? = some a → isSpaceCode a = false) ∧
    normalizeArtistName [] = [] := by
  obtain ⟨hmem, hch, hhd, hlast⟩ := normalize_clean name
  refine ⟨hmem, fun hm => absurd ((hmem 46 hm).1) (by decide), hch, hhd, hlast, rfl⟩

/-- Witness for C7: the amended theorem applied at the concrete input
`"a.b"` and its surviving character `a`. -/
theorem claim7_witness : keepCode 97 = true ∧ toLowerCode 97 = 97 := by
  have hmem : (97 : Nat) ∈ normalizeArtistName [97, 46, 98] := by
    have h : normalizeArtistName [97, 46, 98] = [97, 98] := by
      simp [normalizeArtistName, stripDelim, collapseSpaces, pyStrip, keepCode,
        isWordCode, isSpaceCode, toLowerCode]
    rw [h]
    decide
  have h := (claim7_normalize_transforms [97, 46, 98]).1 97 hmem
  exact ⟨h.1, h.2.1⟩

/-! ### Similarity scorer and confidence -/

theorem similarityScore_snd_iff (seqSim : List Nat → List Nat → ℚ)
    (name1 name2 : List Nat) :
    (calculateSimilarityScore seqSim name1 name2).2 = true ↔
      normalizeArtistName name1 = normalizeArtistName name2 := by
  by_cases heq : normalizeArtistName name1 = normalizeArtistName name2
  · simp [calculateSimilarityScore, heq]
  · by_cases hin : normalizeArtistName name1 <:+: normalizeArtistName name2 ∨
        normalizeArtistName name2 <:+: normalizeArtistName name1
    · simp [calculateSimilarityScore, heq, hin]
    · simp [calculateSimilarityScore, heq, hin]

/-- C10 (confirmed): the similarity scorer is total — its similarity always
lies in `[0,1]` provided the sequence ratio does, the exact flag is true
precisely on the early normalized-equality return, and in the
substring branch (reached only when the normalized names differ) the divisor
`len(max(norm1, norm2, key=len))` is strictly positive,
so the division `len(shorter)/len(longer)` is well defined. -/
theorem claim10_similarity_total (seqSim : List Nat → List Nat → ℚ)
    (hb : ∀ a b, 0 ≤ seqSim a b ∧ seqSim a b ≤ 1) (name1 name2 : List Nat) :
    0 ≤ (calculateSimilarityScore seqSim name1 name2).1 ∧
    (calculateSimilarityScore seqSim name1 name2).1 ≤ 1 ∧
    ((calculateSimilarityScore seqSim name1 name2).2 = true ↔
      normalizeArtistName name1 = normalizeArtistName name2) ∧
    (normalizeArtistName name1 ≠ normalizeArtistName name2 →
      (normalizeArtistName name1 <:+: normalizeArtistName name2 ∨
       normalizeArtistName name2 <:+: normalizeArtistName name1) →
      0 < (if (normalizeArtistName name2).length ≤ (normalizeArtistName name1).length
           then (normalizeArtistName name1).length
           else (normalizeArtistName name2).length)) := by
  refine ⟨?_, ?_, similarityScore_snd_iff seqSim name1 name2, ?_⟩
  · by_cases heq : normalizeArtistName name1 = normalizeArtistName name2
    · simp [calculateSimilarityScore, heq]
    · by_cases hin : normalizeArtistName name1 <:+: normalizeArtistName name2 ∨
          normalizeArtistName name2 <:+: normalizeArtistName name1
      · simp only [calculateSimilarityScore, if_neg heq, if_pos hin]
        exact le_max_of_le_left (hb _ _).1
      · simp only [calculateSimilarityScore, if_neg heq, if_neg hin]
        exact (hb _ _).1
  · by_cases heq : normalizeArtistName name1 = normalizeArtistName name2
    · simp [calculateSimilarityScore, heq]
    · by_cases hin : normalizeArtistName name1 <:+: normalizeArtistName name2 ∨
          normalizeArtistName name2 <:+: normalizeArtistName name1
      · simp only [calculateSimilarityScore, if_neg heq, if_pos hin]
        refine max_le (hb _ _).2 (div_le_one_of_le₀ ?_ (by positivity))
        have hnat : (if (normalizeArtistName name1).length ≤ (normalizeArtistName name2).length
              then (normalizeArtistName name1).length else (normalizeArtistName name2).length) ≤
            (if (normalizeArtistName name2).length ≤ (normalizeArtistName name1).length
              then (normalizeArtistName name1).length else (normalizeArtistName name2).length) := by
          split_ifs <;> omega
        exact_mod_cast hnat
      · simp only [calculateSimilarityScore, if_neg heq, if_neg hin]
        exact (hb _ _).2
  · intro hne _
    by_cases h21 : (normalizeArtistName name2).length ≤ (normalizeArtistName name1).length
    · rw [if_pos h21]
      rcases Nat.eq_zero_or_pos (normalizeArtistName name1).length with h0 | hpos
      · exact absurd (List.length_eq_zero.mp h0 ▸
          List.length_eq_zero.mp (Nat.le_zero.mp (h0 ▸ h21))) (Ne.symm hne).elim
      · exact hpos
    · rw [if_neg h21]
      omega

/-- Witness for C10: the theorem applied with the constant ratio `1/2` to the
names `"a"` and `"ab"`, whose normalized forms differ and are in the
substring relation, so the divisor-positivity conclusion fires. -/
theorem claim10_witness :
    0 < (if (normalizeArtistName [97, 98]).length ≤ (normalizeArtistName [97]).length
         then (normalizeArtistName [97]).length
         else (normalizeArtistName [97, 98]).length) := by
  have e1 : normalizeArtistName [97] = [97] := by
    simp [normalizeArtistName, stripDelim, collapseSpaces, pyStrip, keepCode,
      isWordCode, isSpaceCode, toLowerCode]
  have e2 : normalizeArtistName [97, 98] = [97, 98] := by
    simp [normalizeArtistName, stripDelim, collapseSpaces, pyStrip, keepCode,
      isWordCode, isSpaceCode, toLowerCode]
  exact (claim10_similarity_total (fun _ _ => 1 / 2) (fun a b => by norm_num)
    [97] [97, 98]).2.2.2 (by rw [e1, e2]; decide) (by rw [e1, e2]; decide)

/-- C4 (confirmed): when the normalized names differ, the match confidence is
the base similarity plus `0.1*(popularity/100)` plus `0.1*(presentFields/4)`,
clamped to `[0,1]`; it lies in `[0,1]` for every input; and an exact pair
(normalized names equal) scores exactly 1.0. -/
theorem claim4_confidence_formula (seqSim : List Nat → List Nat → ℚ)
    (title : List Nat) (artist : SpotifyArtistInfo) :
    0 ≤ calculateMatchConfidence seqSim title artist ∧
    calculateMatchConfidence seqSim title artist ≤ 1 ∧
    (normalizeArtistName title ≠ normalizeArtistName artist.name →
      calculateMatchConfidence seqSim title artist =
        min (max ((calculateSimilarityScore seqSim title artist.name).1 +
          ((1 / 10) * ((artist.popularity : ℚ) / 100) +
           (1 / 10) * ((metadataPresentCount artist : ℚ) / 4))) 0) 1) ∧
    (normalizeArtistName title = normalizeArtistName artist.name →
      calculateMatchConfidence seqSim title artist = 1) := by
  have hiff := similarityScore_snd_iff seqSim title artist.name
  by_cases hs : (calculateSimilarityScore seqSim title artist.name).2 = true
  · have hconf : calculateMatchConfidence seqSim title artist = 1 := by
      simp [calculateMatchConfidence, hs]
    refine ⟨by rw [hconf]; norm_num, by rw [hconf], ?_, fun _ => hconf⟩
    intro hne
    exact absurd (hiff.mp hs) hne
  · have hconf : calculateMatchConfidence seqSim title artist =
        min (max ((calculateSimilarityScore seqSim title artist.name).1 +
          (((artist.popularity : ℚ) / 100) * (1 / 10) +
           ((metadataPresentCount artist : ℚ) / 4) * (1 / 10))) 0) 1 := by
      simp [calculateMatchConfidence, hs]
    refine ⟨?_, ?_, ?_, ?_⟩
    · rw [hconf]
      exact le_min (le_max_right _ 0) (by norm_num)
    · rw [hconf]
      exact min_le_right _ 1
    · intro _
      rw [hconf]
      congr 2
      ring
    · intro heq
      exact absurd (hiff.mpr heq) hs

/-- Witness for C4: the formula conjunct applied at the title `"a"` and a
candidate named `"b"` with popularity 100 and full metadata, whose normalized
names differ; with the constant zero ratio the clamped formula evaluates. -/
theorem claim4_witness :
    calculateMatchConfidence (fun _ _ => 0) [97]
      { id := "b1", name := [98], genres := ["rock"], popularity := 100,
        followers := 7, images := [[("url", "u")]], spotify_url := "s" } =
    min (max ((calculateSimilarityScore (fun _ _ => 0) [97] [98]).1 +
      ((1 / 10) * ((100 : ℚ) / 100) +
       (1 / 10) * ((metadataPresentCount
         { id := "b1", name := [98], genres := ["rock"], popularity := 100,
           followers := 7, images := [[("url", "u")]], spotify_url := "s" } : ℚ) / 4))) 0) 1 := by
  have e1 : normalizeArtistName [97] = [97] := by
    simp [normalizeArtistName, stripDelim, collapseSpaces, pyStrip, keepCode,
      isWordCode, isSpaceCode, toLowerCode]
  have e2 : normalizeArtistName [98] = [98] := by
    simp [normalizeArtistName, stripDelim, collapseSpaces, pyStrip, keepCode,
      isWordCode, isSpaceCode, toLowerCode]
  exact (claim4_confidence_formula (fun _ _ => 0) [97] _).2.2.1
    (by rw [e1, e2]; decide)

/-! ### Per-artist processing -/

/-- C3 (amended): whenever the exact search returns at least one candidate,
`_process_single_artist` selects the FIRST exact result in the order the
search returned it (`exact_results[0]`) — not the most popular one — with
confidence exactly 1.0 and matchType `exact`. -/
theorem claim3_exact_branch_first_result (cfg : MatcherConfig)
    (seqSim : List Nat → List Nat → ℚ) (artist : UnmatchedArtist)
    (e0 : SpotifyArtistInfo) (erest searchResults : List SpotifyArtistInfo) :
    (processSingleArtist cfg seqSim artist (e0 :: erest) searchResults).spotify_match = some e0 ∧
    (processSingleArtist cfg seqSim artist (e0 :: erest) searchResults).confidence = 1 ∧
    (processSingleArtist cfg seqSim artist (e0 :: erest) searchResults).match_details =
      MatchDetailsTag.exact ∧
    (processSingleArtist cfg seqSim artist (e0 :: erest) searchResults).needs_review = false := by
  refine ⟨rfl, rfl, rfl, rfl⟩

/-- C3 (counterexample): two same-named exact candidates with popularity 50
and 80, in that provider order — the matcher keeps the popularity-50 one
(`exact_results[0]`), not the more popular one, refuting the claimed
highest-popularity selection. -/
theorem claim3_counterexample :
    (processSingleArtist defaultMatcherConfig (fun _ _ => 0)
      { title := [97], library_section_id := 1, rating_key := "rk1", guid := "g1" }
      [{ id := "s50", name := [97], genres := [], popularity := 50, followers := 0,
         images := [], spotify_url := "u50" },
       { id := "s80", name := [97], genres := [], popularity := 80, followers := 0,
         images := [], spotify_url := "u80" }] []).spotify_match =
      some { id := "s50", name := [97], genres := [], popularity := 50, followers := 0,
             images := [], spotify_url := "u50" } ∧
    (50 : Int) < 80 ∧
    (processSingleArtist defaultMatcherConfig (fun _ _ => 0)
      { title := [97], library_section_id := 1, rating_key := "rk1", guid := "g1" }
      [{ id := "s50", name := [97], genres := [], popularity := 50, followers := 0,
         images := [], spotify_url := "u50" },
       { id := "s80", name := [97], genres := [], popularity := 80, followers := 0,
         images := [], spotify_url := "u80" }] []).spotify_match ≠
      some { id := "s80", name := [97], genres := [], popularity := 80, followers := 0,
             images := [], spotify_url := "u80" } := by
  refine ⟨rfl, by norm_num, ?_⟩
  intro h
  have := Option.some.inj h
  simp [processSingleArtist] at this

/-- On the fuzzy path the alternatives are the slice
`scored_matches[1:max_alternatives]` of the confidence-sorted list — the
next `max_alternatives - 1` candidates — and their number is
`min (max_alternatives - 1) (number of remaining candidates)`. -/
theorem fuzzy_alternatives_spec (cfg : MatcherConfig)
    (seqSim : List Nat → List Nat → ℚ) (artist : UnmatchedArtist)
    (s0 : SpotifyArtistInfo) (srest : List SpotifyArtistInfo) :
    (processSingleArtist cfg seqSim artist [] (s0 :: srest)).alternative_matches =
      (((sortByConfidenceDesc (scoredMatches seqSim artist.title (s0 :: srest))).drop 1).take
        (cfg.max_alternatives - 1)).map Prod.fst ∧
    (processSingleArtist cfg seqSim artist [] (s0 :: srest)).alternative_matches.length =
      min (cfg.max_alternatives - 1) srest.length := by
  refine ⟨rfl, ?_⟩
  have hlen : (sortByConfidenceDesc (scoredMatches seqSim artist.title (s0 :: srest))).length =
      srest.length + 1 := by
    rw [sortByConfidenceDesc, List.length_insertionSort, scoredMatches, List.length_map]
    rfl
  show ((((sortByConfidenceDesc (scoredMatches seqSim artist.title (s0 :: srest))).drop 1).take
      (cfg.max_alternatives - 1)).map Prod.fst).length = _
  rw [List.length_map, List.length_take, List.length_drop, hlen]
  omega

/-- C8 (amended): after sorting scored candidates by confidence descending
and selecting the top one, the alternatives are the next
`max_alternatives - 1` candidates by confidence (the Python slice
`[1:max_alternatives]`); when at least `max_alternatives - 1` further scored
candidates exist, the alternatives list has length `max_alternatives - 1`,
one fewer than the claimed `max_alternatives`. -/
theorem claim8_fuzzy_alternatives (cfg : MatcherConfig)
    (seqSim : List Nat → List Nat → ℚ) (artist : UnmatchedArtist)
    (s0 : SpotifyArtistInfo) (srest : List SpotifyArtistInfo) :
    (processSingleArtist cfg seqSim artist [] (s0 :: srest)).alternative_matches =
      (((sortByConfidenceDesc (scoredMatches seqSim artist.title (s0 :: srest))).drop 1).take
        (cfg.max_alternatives - 1)).map Prod.fst ∧
    (cfg.max_alternatives - 1 ≤ srest.length →
      (processSingleArtist cfg seqSim artist [] (s0 :: srest)).alternative_matches.length =
        cfg.max_alternatives - 1) := by
  obtain ⟨heq, hlen⟩ := fuzzy_alternatives_spec cfg seqSim artist s0 srest
  exact ⟨heq, fun hle => by rw [hlen]; omega⟩

def sampleArtist : UnmatchedArtist :=
  { title := [97], library_section_id := 1, rating_key := "rk", guid := "g" }

def sampleCandidate (n : Nat) : SpotifyArtistInfo :=
  { id := "c", name := [n], genres := [], popularity := 0, followers := 0,
    images := [], spotify_url := "" }

/-- Witness for C8: the amended theorem applied to one top candidate plus
four remaining candidates under the default configuration
(`max_alternatives = 5`), so the alternatives list has length 4. -/
theorem claim8_witness :
    (processSingleArtist defaultMatcherConfig (fun _ _ => 0) sampleArtist []
      (sampleCandidate 1 :: [sampleCandidate 2, sampleCandidate 3, sampleCandidate 4,
        sampleCandidate 5])).alternative_matches.length =
      defaultMatcherConfig.max_alternatives - 1 :=
  (claim8_fuzzy_alternatives defaultMatcherConfig (fun _ _ => 0) sampleArtist
    (sampleCandidate 1) [sampleCandidate 2, sampleCandidate 3, sampleCandidate 4,
      sampleCandidate 5]).2 (by decide)

/-- C8 (counterexample): with the default `max_alternatives = 5` and six
scored candidates (`max_alternatives + 1` of them), the alternatives list has
length 4, not the claimed `max_alternatives = 5`. -/
theorem claim8_counterexample :
    [sampleCandidate 1, sampleCandidate 2, sampleCandidate 3, sampleCandidate 4,
      sampleCandidate 5, sampleCandidate 6].length =
      defaultMatcherConfig.max_alternatives + 1 ∧
    (processSingleArtist defaultMatcherConfig (fun _ _ => 0) sampleArtist []
      [sampleCandidate 1, sampleCandidate 2, sampleCandidate 3, sampleCandidate 4,
        sampleCandidate 5, sampleCandidate 6]).alternative_matches.length ≠
      defaultMatcherConfig.max_alternatives := by
  refine ⟨rfl, ?_⟩
  have h := (fuzzy_alternatives_spec defaultMatcherConfig (fun _ _ => 0) sampleArtist
    (sampleCandidate 1) [sampleCandidate 2, sampleCandidate 3, sampleCandidate 4,
      sampleCandidate 5, sampleCandidate 6]).2
  rw [h]
  decide

/-! ### Batch routing -/

/-- C1 (amended): `process_unmatched_artists` routes an artist whose result
has a non-null best candidate to `matched` exactly when its confidence is at
least `min_confidence = review_threshold` (default 0.80) — NOT
`auto_match_threshold` — and to `needs_review` otherwise; a null best
candidate goes to `no_matches`. -/
theorem claim1_routing_by_review_threshold (cfg : MatcherConfig)
    (a : UnmatchedArtist) (m : MatchResult)
    (rest : List (UnmatchedArtist × ProcOutcome)) :
    (∀ c, m.spotify_match = some c →
      (cfg.review_threshold ≤ m.confidence →
        (processUnmatchedArtists cfg ((a, ProcOutcome.ok m) :: rest)).matched =
          m :: (processUnmatchedArtists cfg rest).matched ∧
        (processUnmatchedArtists cfg ((a, ProcOutcome.ok m) :: rest)).needs_review =
          (processUnmatchedArtists cfg rest).needs_review ∧
        (processUnmatchedArtists cfg ((a, ProcOutcome.ok m) :: rest)).no_matches =
          (processUnmatchedArtists cfg rest).no_matches) ∧
      (m.confidence < cfg.review_threshold →
        (processUnmatchedArtists cfg ((a, ProcOutcome.ok m) :: rest)).needs_review =
          m :: (processUnmatchedArtists cfg rest).needs_review ∧
        (processUnmatchedArtists cfg ((a, ProcOutcome.ok m) :: rest)).matched =
          (processUnmatchedArtists cfg rest).matched ∧
        (processUnmatchedArtists cfg ((a, ProcOutcome.ok m) :: rest)).no_matches =
          (processUnmatchedArtists cfg rest).no_matches)) ∧
    (m.spotify_match = none →
      (processUnmatchedArtists cfg ((a, ProcOutcome.ok m) :: rest)).no_matches =
        a :: (processUnmatchedArtists cfg rest).no_matches ∧
      (processUnmatchedArtists cfg ((a, ProcOutcome.ok m) :: rest)).matched =
        (processUnmatchedArtists cfg rest).matched ∧
      (processUnmatchedArtists cfg ((a, ProcOutcome.ok m) :: rest)).needs_review =
        (processUnmatchedArtists cfg rest).needs_review) := by
  refine ⟨fun c hc => ⟨fun hge => ?_, fun hlt => ?_⟩, fun hnone => ?_⟩
  · simp only [processUnmatchedArtists, routeArtist, hc, MatcherConfig.min_confidence,
      if_pos hge]
    exact ⟨trivial, trivial, trivial⟩
  · simp only [processUnmatchedArtists, routeArtist, hc, MatcherConfig.min_confidence,
      if_neg (not_le.mpr hlt)]
    exact ⟨trivial, trivial, trivial⟩
  · simp only [processUnmatchedArtists, routeArtist, hnone]
    exact ⟨trivial, trivial, trivial⟩

/-- A concrete fuzzy result with confidence 0.85: below
`auto_match_threshold` (0.95) but at or above `review_threshold` (0.80). -/
def midConfidenceResult : MatchResult :=
  { plex_artist := sampleArtist
    spotify_match := some (sampleCandidate 9)
    confidence := 85 / 100
    needs_review := true
    alternative_matches := []
    match_details := .fuzzy }

/-- C1 (counterexample): an artist whose result has a non-null candidate and
confidence 0.85 < 0.95 lands in the `matched` bucket, refuting the claim
that `matched` requires `confidence >= auto_match_threshold`. -/
theorem claim1_counterexample :
    (processUnmatchedArtists defaultMatcherConfig
      [(sampleArtist, ProcOutcome.ok midConfidenceResult)]).matched =
      [midConfidenceResult] ∧
    midConfidenceResult.confidence < defaultMatcherConfig.auto_match_threshold ∧
    midConfidenceResult.spotify_match ≠ none := by
  refine ⟨?_, by norm_num [midConfidenceResult, defaultMatcherConfig], by simp [midConfidenceResult]⟩
  simp only [processUnmatchedArtists, routeArtist, midConfidenceResult,
    MatcherConfig.min_confidence]
  rw [if_pos (by norm_num [defaultMatcherConfig])]

/-- Witness for C1: the amended theorem applied to the 0.85-confidence
result under the default thresholds; its hypotheses
(`spotify_match = some _`, `review_threshold ≤ confidence`) hold there. -/
theorem claim1_witness :
    (processUnmatchedArtists defaultMatcherConfig
      [(sampleArtist, ProcOutcome.ok midConfidenceResult)]).matched =
      midConfidenceResult ::
        (processUnmatchedArtists defaultMatcherConfig []).matched :=
  (((claim1_routing_by_review_threshold defaultMatcherConfig sampleArtist
      midConfidenceResult []).1 (sampleCandidate 9) rfl).1
    (by norm_num [defaultMatcherConfig, midConfidenceResult])).1

theorem routeArtist_length (cfg : MatcherConfig) (a : UnmatchedArtist)
    (o : ProcOutcome) (b : MatchBuckets) :
    (routeArtist cfg a o b).matched.length +
    (routeArtist cfg a o b).needs_review.length +
    (routeArtist cfg a o b).no_matches.length =
    b.matched.length + b.needs_review.length + b.no_matches.length + 1 := by
  rcases o with _ | m
  · simp [routeArtist]
    omega
  · rcases hm : m.spotify_match with _ | c
    · simp [routeArtist, hm]
      omega
    · by_cases hc : cfg.min_confidence ≤ m.confidence
      · simp [routeArtist, hm, hc]
        omega
      · simp [routeArtist, hm, hc]
        omega

theorem routeArtist_perm (cfg : MatcherConfig) (a : UnmatchedArtist)
    (o : ProcOutcome) (b : MatchBuckets)
    (hok : ∀ m, o = ProcOutcome.ok m → m.plex_artist = a) :
    List.Perm
      ((routeArtist cfg a o b).matched.map MatchResult.plex_artist ++
       (routeArtist cfg a o b).needs_review.map MatchResult.plex_artist ++
       (routeArtist cfg a o b).no_matches)
      (a :: (b.matched.map MatchResult.plex_artist ++
             b.needs_review.map MatchResult.plex_artist ++ b.no_matches)) := by
  rcases o with _ | m
  · simp only [routeArtist]
    exact List.perm_middle
  · have ha : m.plex_artist = a := hok m rfl
    rcases hm : m.spotify_match with _ | c
    · simp only [routeArtist, hm]
      exact List.perm_middle
    · by_cases hc : cfg.min_confidence ≤ m.confidence
      · simp only [routeArtist, hm, if_pos hc, List.map_cons, ha, List.cons_append]
        exact List.Perm.refl _
      · simp only [routeArtist, hm, if_neg hc, List.map_cons, ha]
        exact List.Perm.append_right _ List.perm_middle

theorem processUnmatched_length_sum (cfg : MatcherConfig)
    (input : List (UnmatchedArtist × ProcOutcome)) :
    (processUnmatchedArtists cfg input).matched.length +
    (processUnmatchedArtists cfg input).needs_review.length +
    (processUnmatchedArtists cfg input).no_matches.length = input.length := by
  induction input with
  | nil => simp [processUnmatchedArtists]
  | cons p rest ih =>
    obtain ⟨a, o⟩ := p
    rw [processUnmatchedArtists, routeArtist_length, ih]
    simp

theorem processUnmatched_perm (cfg : MatcherConfig)
    (input : List (UnmatchedArtist × ProcOutcome))
    (h : ∀ p ∈ input, ∀ m, p.2 = ProcOutcome.ok m → m.plex_artist = p.1) :
    List.Perm
      ((processUnmatchedArtists cfg input).matched.map MatchResult.plex_artist ++
       (processUnmatchedArtists cfg input).needs_review.map MatchResult.plex_artist ++
       (processUnmatchedArtists cfg input).no_matches)
      (input.map Prod.fst) := by
  induction input with
  | nil => simp [processUnmatchedArtists]
  | cons p rest ih =>
    obtain ⟨a, o⟩ := p
    rw [processUnmatchedArtists]
    refine List.Perm.trans
      (routeArtist_perm cfg a o (processUnmatchedArtists cfg rest)
        (fun m hm => h (a, o) (List.mem_cons_self _ _) m hm)) ?_
    simp only [List.map_cons]
    exact List.Perm.cons a (ih (fun p hp m hm => h p (List.mem_cons_of_mem _ hp) m hm))

/-- C2 (confirmed): the three buckets partition the input — their sizes sum
to the input length, and (when, as the per-artist processor guarantees, each
returned result carries its own input artist) the artists across the three
buckets are a permutation of the input artists; a per-artist exception
appends exactly that artist to `no_matches` and leaves the other buckets of
the remaining batch untouched. -/
theorem claim2_buckets_partition (cfg : MatcherConfig)
    (input : List (UnmatchedArtist × ProcOutcome)) :
    ((processUnmatchedArtists cfg input).matched.length +
     (processUnmatchedArtists cfg input).needs_review.length +
     (processUnmatchedArtists cfg input).no_matches.length = input.length) ∧
    ((∀ p ∈ input, ∀ m, p.2 = ProcOutcome.ok m → m.plex_artist = p.1) →
      List.Perm
        ((processUnmatchedArtists cfg input).matched.map MatchResult.plex_artist ++
         (processUnmatchedArtists cfg input).needs_review.map MatchResult.plex_artist ++
         (processUnmatchedArtists cfg input).no_matches)
        (input.map Prod.fst)) ∧
    (∀ a rest,
      (processUnmatchedArtists cfg ((a, ProcOutcome.raised) :: rest)).no_matches =
        a :: (processUnmatchedArtists cfg rest).no_matches ∧
      (processUnmatchedArtists cfg ((a, ProcOutcome.raised) :: rest)).matched =
        (processUnmatchedArtists cfg rest).matched ∧
      (processUnmatchedArtists cfg ((a, ProcOutcome.raised) :: rest)).needs_review =
        (processUnmatchedArtists cfg rest).needs_review) := by
  refine ⟨processUnmatched_length_sum cfg input, processUnmatched_perm cfg input, ?_⟩
  intro a rest
  simp only [processUnmatchedArtists, routeArtist]
  exact ⟨trivial, trivial, trivial⟩

def sampleArtist2 : UnmatchedArtist :=
  { title := [98], library_section_id := 1, rating_key := "rk2", guid := "g2" }

/-- Witness for C2: the permutation conjunct applied to a concrete two-artist
batch (one mid-confidence result, one exception), discharging the
carries-its-artist hypothesis. -/
theorem claim2_witness :
    List.Perm
      ((processUnmatchedArtists defaultMatcherConfig
         [(sampleArtist, ProcOutcome.ok midConfidenceResult),
          (sampleArtist2, ProcOutcome.raised)]).matched.map MatchResult.plex_artist ++
       (processUnmatchedArtists defaultMatcherConfig
         [(sampleArtist, ProcOutcome.ok midConfidenceResult),
          (sampleArtist2, ProcOutcome.raised)]).needs_review.map MatchResult.plex_artist ++
       (processUnmatchedArtists defaultMatcherConfig
         [(sampleArtist, ProcOutcome.ok midConfidenceResult),
          (sampleArtist2, ProcOutcome.raised)]).no_matches)
      ([(sampleArtist, ProcOutcome.ok midConfidenceResult),
        (sampleArtist2, ProcOutcome.raised)].map Prod.fst) := by
  refine (claim2_buckets_partition defaultMatcherConfig _).2.1 ?_
  intro p hp m hm
  rcases List.mem_cons.mp hp with rfl | hp
  · have hmm : midConfidenceResult = m := by simpa using hm
    rw [← hmm]
    rfl
  · rcases List.mem_cons.mp hp with rfl | hp
    · simp at hm
    · simp at hp

/-! ### Decision ledger -/

/-- The decision with the `bio` field of its embedded candidate (when one is
present) reset to `None`, which is what the serialization boundary produces:
`_spotify_artist_to_dict` does not write `bio` and `_dict_to_spotify_artist`
leaves it at its dataclass default. -/
def decisionClearBio (d : Decision) : Decision :=
  { d with spotify_data := d.spotify_data.map (Option.map (fun a => { a with bio := none })) }

theorem restore_persist_decision (d : Decision) :
    restoreDecision (persistDecision d) = decisionClearBio d := by
  cases d with
  | mk act pa sid sn conf oconf rsn st mt ts sd =>
    rcases sd with _ | oa
    · rfl
    · rcases oa with _ | a
      · rfl
      · cases a
        rfl

theorem dictGet_map {α β : Type} (f : α → β) (k : String) (l : List (String × α)) :
    dictGet k (l.map (fun kv => (kv.1, f kv.2))) = (dictGet k l).map f := by
  induction l with
  | nil => rfl
  | cons kv rest ih =>
    by_cases hk : kv.1 = k
    · simp [dictGet, hk]
    · simp [dictGet, hk, ih]

theorem restoreLedger_persistLedger (l : List (String × Decision)) :
    restoreLedger (persistLedger l) = l.map (fun kv => (kv.1, decisionClearBio kv.2)) := by
  rw [restoreLedger, persistLedger, List.map_map]
  refine List.map_congr_left (fun kv _ => ?_)
  simp [Function.comp, restore_persist_decision]

theorem decisionClearBio_id {d : Decision}
    (h : ∀ a, d.spotify_data = some (some a) → a.bio = none) :
    decisionClearBio d = d := by
  cases d with
  | mk act pa sid sn conf oconf rsn st mt ts sd =>
    rcases sd with _ | oa
    · rfl
    · rcases oa with _ | a
      · rfl
      · have hb : a.bio = none := h a rfl
        simp only [decisionClearBio, Option.map_some]
        congr
        cases a
        simp_all

/-- C5 (amended): restoring a persisted ledger yields, for every key, the
original decision with every field intact EXCEPT the embedded candidate's
`bio` field, which comes back as `None` (it is not among the seven fields
serialized by `_spotify_artist_to_dict`); when no stored candidate carries a
bio — as for candidates built by the search path — the round trip is the
identity. -/
theorem claim5_ledger_round_trip (l : List (String × Decision)) :
    (∀ k, dictGet k (restoreLedger (persistLedger l)) =
      (dictGet k l).map decisionClearBio) ∧
    ((∀ kv ∈ l, ∀ a, kv.2.spotify_data = some (some a) → a.bio = none) →
      restoreLedger (persistLedger l) = l) := by
  constructor
  · intro k
    rw [restoreLedger_persistLedger, dictGet_map]
  · intro h
    rw [restoreLedger_persistLedger]
    have : ∀ kv ∈ l, (fun kv : String × Decision => (kv.1, decisionClearBio kv.2)) kv = id kv := by
      intro kv hkv
      have := decisionClearBio_id (fun a ha => h kv hkv a ha)
      simp [this]
    rw [List.map_congr_left this, List.map_id]

/-- A candidate whose `bio` field is set, as `get_artist_bio`-style
enrichment could produce. -/
def bioCandidate : SpotifyArtistInfo :=
  { id := "b", name := [98], genres := [], popularity := 1, followers := 1,
    images := [], spotify_url := "u", bio := some "hello" }

def bioDecision : Decision :=
  { action := "accept_primary", plex_artist := [97],
    spotify_data := some (some bioCandidate) }

/-- C5 (counterexample): a ledger holding a decision whose embedded candidate
has `bio = "hello"` does not round-trip identically — the restored candidate
has `bio = None`. -/
theorem claim5_counterexample :
    restoreLedger (persistLedger [("rk", bioDecision)]) ≠ [("rk", bioDecision)] ∧
    dictGet "rk" (restoreLedger (persistLedger [("rk", bioDecision)])) =
      some { bioDecision with
        spotify_data := some (some { bioCandidate with bio := none }) } ∧
    bioCandidate.bio = some "hello" := by
  refine ⟨by decide, rfl, rfl⟩

/-- Witness for C5: the round-trip theorem at a concrete one-entry ledger,
with the bio-free hypothesis discharged. -/
theorem claim5_witness :
    restoreLedger (persistLedger
      [("rk", { action := "no_match", plex_artist := [97] : Decision })]) =
    [("rk", { action := "no_match", plex_artist := [97] : Decision })] := by
  refine (claim5_ledger_round_trip _).2 ?_
  intro kv hkv a ha
  rcases List.mem_cons.mp hkv with rfl | hkv
  · simp at ha
  · simp at hkv

theorem dictGet_dictSet_self {α : Type} (k : String) (v : α) (l : List (String × α)) :
    dictGet k (dictSet k v l) = some v := by
  induction l with
  | nil => simp [dictSet, dictGet]
  | cons kv rest ih =>
    by_cases hk : kv.1 = k
    · obtain ⟨k', v'⟩ := kv
      simp only at hk
      simp [dictSet, hk, dictGet]
    · obtain ⟨k', v'⟩ := kv
      simp only at hk
      simp [dictSet, hk, dictGet, ih]

theorem mem_keys_dictSet {α : Type} {a k : String} {v : α} {l : List (String × α)}
    (h : a ∈ (dictSet k v l).map Prod.fst) : a = k ∨ a ∈ l.map Prod.fst := by
  induction l with
  | nil => simpa [dictSet] using h
  | cons kv rest ih =>
    obtain ⟨k', v'⟩ := kv
    by_cases hk : k' = k
    · rw [dictSet, if_pos hk, List.map_cons] at h
      rw [List.map_cons]
      rcases List.mem_cons.mp h with h1 | h1
      · exact Or.inl h1
      · exact Or.inr (List.mem_cons_of_mem _ h1)
    · rw [dictSet, if_neg hk, List.map_cons] at h
      rw [List.map_cons]
      rcases List.mem_cons.mp h with h1 | h1
      · exact Or.inr (h1 ▸ List.mem_cons_self _ _)
      · rcases ih h1 with h2 | h2
        · exact Or.inl h2
        · exact Or.inr (List.mem_cons_of_mem _ h2)

theorem nodup_keys_dictSet {α : Type} (k : String) (v : α) (l : List (String × α))
    (h : (l.map Prod.fst).Nodup) : ((dictSet k v l).map Prod.fst).Nodup := by
  induction l with
  | nil => simp [dictSet]
  | cons kv rest ih =>
    obtain ⟨k', v'⟩ := kv
    rw [List.map_cons, List.nodup_cons] at h
    by_cases hk : k' = k
    · subst hk
      rw [dictSet, if_pos rfl]
      simpa using h
    · rw [dictSet, if_neg hk]
      rw [List.map_cons, List.nodup_cons]
      refine ⟨fun hmem => ?_, ih h.2⟩
      rcases mem_keys_dictSet hmem with h1 | h1
      · exact hk h1
      · exact h.1 h1

theorem count_keys_dictSet {α : Type} (k : String) (v : α) (l : List (String × α))
    (h : (l.map Prod.fst).Nodup) : ((dictSet k v l).map Prod.fst).count k = 1 := by
  induction l with
  | nil => simp [dictSet]
  | cons kv rest ih =>
    obtain ⟨k', v'⟩ := kv
    rw [List.map_cons, List.nodup_cons] at h
    by_cases hk : k' = k
    · subst hk
      rw [dictSet, if_pos rfl, List.map_cons, List.count_cons_self,
        List.count_eq_zero_of_not_mem h.1]
    · rw [dictSet, if_neg hk, List.map_cons,
        List.count_cons_of_ne (fun he => hk he.symm), ih h.2]

/-- C6 (confirmed): recording two decisions under the same key leaves exactly
one decision for that key — the second one, carrying its own timestamp — and
`_add_decision` preserves the at-most-one-decision-per-key invariant of the
Python dict on every operation. -/
theorem claim6_ledger_overwrite (ts1 ts2 k : String) (d1 d2 : Decision)
    (ledger : List (String × Decision))
    (h : (ledger.map Prod.fst).Nodup) :
    dictGet k (addDecision ts2 k d2 (addDecision ts1 k d1 ledger)) =
      some { d2 with timestamp := some ts2 } ∧
    ((addDecision ts2 k d2 (addDecision ts1 k d1 ledger)).map Prod.fst).count k = 1 ∧
    (∀ ts k' (d' : Decision) (l' : List (String × Decision)),
      (l'.map Prod.fst).Nodup → ((addDecision ts k' d' l').map Prod.fst).Nodup) := by
  refine ⟨dictGet_dictSet_self k _ _,
    count_keys_dictSet k _ _ (nodup_keys_dictSet k _ _ h),
    fun ts k' d' l' h' => nodup_keys_dictSet k' _ _ h'⟩

/-- Witness for C6: the overwrite theorem at a concrete empty ledger and two
decisions recorded under the same rating key. -/
theorem claim6_witness :
    dictGet "rk" (addDecision "t2" "rk"
      { action := "accept_primary", plex_artist := [97], spotify_id := some "s1" }
      (addDecision "t1" "rk" { action := "no_match", plex_artist := [97] } [])) =
    some { action := "accept_primary", plex_artist := [97], spotify_id := some "s1",
           timestamp := some "t2" } :=
  (claim6_ledger_overwrite "t1" "t2" "rk"
    { action := "no_match", plex_artist := [97] }
    { action := "accept_primary", plex_artist := [97], spotify_id := some "s1" }
    [] (by simp)).1
